import Mathlib

/-!
Shallow embedding of bqproxy (`main.go`): an HTTP proxy that runs
pre-configured BigQuery queries.  The embedded parts are the parameter
binder `buildQueryParams`, the per-field projector `castField`, and the
request handler `queryHandler`, together with the pieces of their external
collaborators the code observably depends on (`strconv.Atoi`,
`strconv.ParseFloat`, `url.Values.Get`, Go map semantics,
`encoding/json.Marshal` of `[]map[string]interface{}`, and `net/http`'s
`ResponseWriter` header/flush discipline).
-/

namespace BQProxy

/-- Go's `bigquery.FieldType` (a string-valued enum).  The source switches on
the four scalar types; every other field type falls into the default arm and
is carried by the `other` constructor. -/
inductive FieldType where
  | integer
  | float
  | boolean
  | string
  | other (tag : String)
deriving DecidableEq, Repr

/-- A dynamically-typed Go value (`interface{}` / `bigquery.Value`) of the
runtime representations the source manipulates: `int64`, `float64`, `bool`,
`string`, and anything else.  A `float64` is represented by the decimal
literal it was parsed from or rendered as; IEEE-754 arithmetic and rounding
are not modelled because no embedded code path observes them — the code only
parses floats, stores them, and hands them on. -/
inductive GoValue where
  | int (i : Int)
  | float (lit : String)
  | bool (b : Bool)
  | str (s : String)
  | other (tag : String)
deriving DecidableEq, Repr

/-- Go's `strconv.NumError`: the error value returned by `Atoi`/`ParseFloat`,
carrying the function name, the offending input string, and the reason. -/
structure NumError where
  func : String
  num : String
  err : String
deriving DecidableEq, Repr

/-- Accumulate base-10 digits; `none` as soon as a non-digit is seen. -/
def parseDigitsAux : List Char → Nat → Option Nat
  | [], acc => some acc
  | c :: cs, acc =>
    if c.isDigit then parseDigitsAux cs (acc * 10 + (c.toNat - 48))
    else none

/-- Go's `strconv.Atoi` on a 64-bit platform (the Dockerfile builds for
amd64): optional sign, one or more ASCII digits, value must fit in `int64`;
empty string, stray characters and overflow are errors.  On error the source
returns the error and aborts, so the partially-converted value Go would also
return is irrelevant and not modelled. -/
def atoi (s : String) : Except NumError Int :=
  match s.data with
  | [] => Except.error ⟨"Atoi", s, "invalid syntax"⟩
  | c :: cs =>
    let neg : Bool := c = '-'
    let digits : List Char := if c = '-' ∨ c = '+' then cs else c :: cs
    if digits.isEmpty then Except.error ⟨"Atoi", s, "invalid syntax"⟩
    else
      match parseDigitsAux digits 0 with
      | none => Except.error ⟨"Atoi", s, "invalid syntax"⟩
      | some n =>
        let v : Int := if neg then -(n : Int) else (n : Int)
        if v < -9223372036854775808 ∨ 9223372036854775807 < v then
          Except.error ⟨"Atoi", s, "value out of range"⟩
        else Except.ok v

/-- Exponent part of a decimal float literal: empty, or `e`/`E`, an optional
sign, and at least one digit. -/
def expOk (cs : List Char) : Bool :=
  match cs with
  | [] => true
  | e :: rest =>
    if e = 'e' ∨ e = 'E' then
      let rest2 : List Char :=
        match rest with
        | [] => []
        | c :: t => if c = '+' ∨ c = '-' then t else c :: t
      !rest2.isEmpty && rest2.all Char.isDigit
    else false

/-- Unsigned decimal float literal: digits with an optional dot (at least one
digit on some side of the dot) and an optional exponent. -/
def floatDigits (cs : List Char) : Bool :=
  let ip := cs.takeWhile Char.isDigit
  let rest1 := cs.dropWhile Char.isDigit
  match rest1 with
  | '.' :: rest2 =>
    let fp := rest2.takeWhile Char.isDigit
    let rest3 := rest2.dropWhile Char.isDigit
    (!ip.isEmpty || !fp.isEmpty) && expOk rest3
  | _ => !ip.isEmpty && expOk rest1

/-- Accept/reject behaviour of Go's `strconv.ParseFloat(s, 64)` on decimal
literals and the case-insensitive special values (`Inf`/`Infinity` with
optional sign, `NaN` without).  Hexadecimal float literals and digit-separator
underscores are not modelled: no configured query or claim exercises them.
The IEEE-754 value is not computed — the accepted literal itself is kept as
the `float64`'s representation (see `GoValue.float`). -/
def parseFloat (s : String) : Except NumError String :=
  let lower := s.toLower
  if lower = "inf" ∨ lower = "infinity" ∨ lower = "+inf" ∨ lower = "+infinity" ∨
      lower = "-inf" ∨ lower = "-infinity" ∨ lower = "nan" then Except.ok s
  else
    match s.data with
    | [] => Except.error ⟨"ParseFloat", s, "invalid syntax"⟩
    | c :: cs =>
      let ds : List Char := if c = '-' ∨ c = '+' then cs else c :: cs
      if floatDigits ds then Except.ok s
      else Except.error ⟨"ParseFloat", s, "invalid syntax"⟩

/-- Go's `url.Values`: a map from key to the list of values supplied for it.
The association list stands for the map; keys are unique in a real `Values`
but no definition below depends on that. -/
abbrev Values := List (String × List String)

/-- Go's `url.Values.Get`: the first value associated with the key, or the
empty string when the key is absent or has no values. -/
def valuesGet (values : Values) (key : String) : String :=
  match values.lookup key with
  | none => ""
  | some [] => ""
  | some (v :: _) => v

/-- Go's `bigquery.QueryParameter`: a named, dynamically-typed value. -/
structure QueryParameter where
  Name : String
  Value : GoValue
deriving DecidableEq, Repr

/-- The `switch fieldType` body of `buildQueryParams` (main.go:143-152),
factored into a function: convert one raw string into the native type.
`Integer` uses `strconv.Atoi`, `Boolean` compares against the literal
`"true"`, `Float` uses `strconv.ParseFloat`, and the default arm (covering
`String` and every other field type) passes the raw string through. -/
def convert (fieldType : FieldType) (raw : String) : Except NumError GoValue :=
  match fieldType with
  | FieldType.integer => (atoi raw).map GoValue.int
  | FieldType.boolean => Except.ok (GoValue.bool (raw == "true"))
  | FieldType.float => (parseFloat raw).map GoValue.float
  | _ => Except.ok (GoValue.str raw)

/-- `buildQueryParams` (main.go:135-165).  The Go `for key, fieldType :=
range config` loop visits the map's entries in an unspecified order; the
association list argument stands for the map under one such iteration order,
so properties that must hold for the map hold for every presentation, and
order-sensitivity shows up as sensitivity to permutations of this list.  The
loop appends one `QueryParameter` per entry and returns early with the error
of the first entry whose conversion fails. -/
def buildQueryParams : List (String × FieldType) → Values →
    Except NumError (List QueryParameter)
  | [], _ => Except.ok []
  | (key, fieldType) :: rest, values =>
    match convert fieldType (valuesGet values key) with
    | Except.error e => Except.error e
    | Except.ok v =>
      match buildQueryParams rest values with
      | Except.error e => Except.error e
      | Except.ok ps => Except.ok (QueryParameter.mk key v :: ps)

/-- One entry of `it.Schema` (`bigquery.FieldSchema`): the column's `Name`
and `Type`. -/
structure FieldSchema where
  name : String
  ftype : FieldType
deriving DecidableEq, Repr

/-- One engine row as read into `map[string]bigquery.Value`.  A stored `none`
is a value that is the nil interface (an explicit SQL NULL); an absent key
reads as nil too, via `rowGet`. -/
abbrev RawRow := List (String × Option GoValue)

/-- Go map indexing `rawRow[name]`: the stored value, or the zero value (nil,
i.e. `none`) when the key is absent. -/
def rowGet (row : RawRow) (name : String) : Option GoValue :=
  match row.lookup name with
  | none => none
  | some v => v

/-- Result of `castField`: either a value (possibly nil), or the runtime
panic Go raises when an unchecked type assertion `v.(T)` fails (`interface
conversion` panic).  The panic is a distinct outcome, not an error value the
caller receives: nothing in `main.go` recovers from it. -/
inductive CastOutcome where
  | ok (v : Option GoValue)
  | panic (want : FieldType)
deriving DecidableEq, Repr

/-- `castField` (main.go:118-133): nil passes through as nil; each of the
four scalar field types performs an unchecked type assertion on the value;
any other field type falls out of the switch and returns the value
unchanged. -/
def castField (fieldType : FieldType) (v : Option GoValue) : CastOutcome :=
  match v, fieldType with
  | none, _ => CastOutcome.ok none
  | some (GoValue.int i), FieldType.integer => CastOutcome.ok (some (GoValue.int i))
  | some _, FieldType.integer => CastOutcome.panic FieldType.integer
  | some (GoValue.str s), FieldType.string => CastOutcome.ok (some (GoValue.str s))
  | some _, FieldType.string => CastOutcome.panic FieldType.string
  | some (GoValue.bool b), FieldType.boolean => CastOutcome.ok (some (GoValue.bool b))
  | some _, FieldType.boolean => CastOutcome.panic FieldType.boolean
  | some (GoValue.float f), FieldType.float => CastOutcome.ok (some (GoValue.float f))
  | some _, FieldType.float => CastOutcome.panic FieldType.float
  | some w, FieldType.other _ => CastOutcome.ok (some w)

/-- Whether a runtime value's representation matches a declared scalar field
type (the condition under which the type assertion in `castField`
succeeds). -/
def matchesType : FieldType → GoValue → Bool
  | FieldType.integer, GoValue.int _ => true
  | FieldType.string, GoValue.str _ => true
  | FieldType.boolean, GoValue.bool _ => true
  | FieldType.float, GoValue.float _ => true
  | _, _ => false

/-- A projected row: the contents of the Go map
`row := make(map[string]interface{})` that `queryHandler` fills per schema
field.  The association list records insertion order; as a Go map the row
itself is unordered — observable key order arises only at serialization
(`marshalRow`), which sorts keys like `encoding/json` does. -/
abbrev ProjRow := List (String × Option GoValue)

/-- Go map assignment `m[k] = v`: overwrite the entry if the key is present,
append it otherwise. -/
def mapInsert (m : ProjRow) (k : String) (v : Option GoValue) : ProjRow :=
  if m.any (fun kv => kv.1 == k) then
    m.map (fun kv => if kv.1 == k then (k, v) else kv)
  else m ++ [(k, v)]

/-- The row-building loop of `queryHandler` (main.go:105-109): for each
schema field, in schema order, assign `row[field.Name] =
castField(field.Type, rawRow[field.Name])`.  A failed type assertion panics
at the first mismatched field; `Except.error` carries the asserted type. -/
def projectRowAux : List FieldSchema → RawRow → ProjRow → Except FieldType ProjRow
  | [], _, acc => Except.ok acc
  | f :: rest, raw, acc =>
    match castField f.ftype (rowGet raw f.name) with
    | CastOutcome.panic t => Except.error t
    | CastOutcome.ok v => projectRowAux rest raw (mapInsert acc f.name v)

/-- Project one raw row through the schema, starting from the fresh empty
map. -/
def projectRow (schema : List FieldSchema) (raw : RawRow) : Except FieldType ProjRow :=
  projectRowAux schema raw []

/-- Projection without the accumulating map: used to reason about
`projectRow` when schema column names are distinct (then map insertion never
overwrites and equals appending). -/
def projectRowSimple : List FieldSchema → RawRow → Except FieldType ProjRow
  | [], _ => Except.ok []
  | f :: rest, raw =>
    match castField f.ftype (rowGet raw f.name) with
    | CastOutcome.panic t => Except.error t
    | CastOutcome.ok v => (projectRowSimple rest raw).map (fun m => (f.name, v) :: m)

/-- Lexicographic byte order on strings, as Go's `sort.Strings` compares map
keys inside `encoding/json` (codepoint order coincides with byte order on
the ASCII keys in play). -/
def charListLe : List Char → List Char → Bool
  | [], _ => true
  | _ :: _, [] => false
  | a :: as, b :: bs =>
    if a < b then true else if b < a then false else charListLe as bs

/-- String comparison used to sort JSON object keys. -/
def strle (a b : String) : Bool := charListLe a.data b.data

/-- Insert an entry into a key-sorted list. -/
def insertByKey (kv : String × Option GoValue) : ProjRow → ProjRow
  | [] => [kv]
  | x :: xs => if strle kv.1 x.1 then kv :: x :: xs else x :: insertByKey kv xs

/-- Sort a row's entries by key, as `encoding/json.Marshal` does for a
`map[string]interface{}`. -/
def sortByKey (m : ProjRow) : ProjRow := m.foldr insertByKey []

/-- Hexadecimal digit for `\uXXXX` escapes. -/
def hexDigit (n : Nat) : Char :=
  if n < 10 then Char.ofNat (48 + n) else Char.ofNat (87 + n)

/-- `encoding/json` escaping of one character inside a string literal (the
default encoder also HTML-escapes angle brackets and ampersands). -/
def escapeJSONChar (c : Char) : String :=
  if c = '"' then "\\\""
  else if c = '\\' then "\\\\"
  else if c = '\n' then "\\n"
  else if c = '\r' then "\\r"
  else if c = '\t' then "\\t"
  else if c = '<' then "\\u003c"
  else if c = '>' then "\\u003e"
  else if c = '&' then "\\u0026"
  else if c.toNat < 32 then
    String.mk ['\\', 'u', '0', '0', hexDigit (c.toNat / 16), hexDigit (c.toNat % 16)]
  else String.singleton c

/-- A JSON string literal. -/
def marshalString (s : String) : String :=
  "\"" ++ String.join (s.data.map escapeJSONChar) ++ "\""

/-- `encoding/json.Marshal` of one dynamically-typed scalar.  A `float64` is
rendered as its stored literal and an unknown-typed value opaquely via its
tag — approximations confined to values no configured query or claim
produces. -/
def marshalValue : Option GoValue → String
  | none => "null"
  | some (GoValue.int i) => toString i
  | some (GoValue.bool b) => if b then "true" else "false"
  | some (GoValue.str s) => marshalString s
  | some (GoValue.float lit) => lit
  | some (GoValue.other tag) => marshalString tag

/-- `encoding/json.Marshal` of a `map[string]interface{}`: a JSON object
whose keys appear in sorted order, regardless of insertion order. -/
def marshalRow (m : ProjRow) : String :=
  "\x7b" ++
    String.intercalate ","
      ((sortByKey m).map (fun kv => marshalString kv.1 ++ ":" ++ marshalValue kv.2)) ++
  "\x7d"

/-- `encoding/json.Marshal` of the accumulated `[]map[string]interface{}`:
a JSON array; the empty (but non-nil) slice marshals as `[]`. -/
def marshalRows (rows : List ProjRow) : String :=
  "[" ++ String.intercalate "," (rows.map marshalRow) ++ "]"

/-- The observable state of a `net/http` `ResponseWriter`: the mutable
header map (only Content-Type is ever touched), the status code sent by the
first `WriteHeader` (later calls are superfluous no-ops), the header snapshot
actually transmitted when the header section was flushed, and the body bytes
written. -/
structure ResponseWriter where
  headerCT : Option String
  status : Option Nat
  sentCT : Option String
  body : String
deriving DecidableEq, Repr

/-- A fresh per-request writer. -/
def ResponseWriter.init : ResponseWriter :=
  { headerCT := none, status := none, sentCT := none, body := "" }

/-- `w.Header().Set("Content-Type", v)`: mutates the header map; it only
reaches the wire if the headers have not been flushed yet. -/
def ResponseWriter.setContentType (w : ResponseWriter) (v : String) : ResponseWriter :=
  { w with headerCT := some v }

/-- `w.WriteHeader(code)`: sends the status and freezes the headers; a
second call changes nothing. -/
def ResponseWriter.writeHeader (w : ResponseWriter) (code : Nat) : ResponseWriter :=
  match w.status with
  | some _ => w
  | none => { w with status := some code, sentCT := w.headerCT }

/-- `w.Write(s)`: implicitly sends a 200 header first if none was sent,
then appends to the body. -/
def ResponseWriter.write (w : ResponseWriter) (s : String) : ResponseWriter :=
  match w.status with
  | some _ => { w with body := w.body ++ s }
  | none =>
    { headerCT := w.headerCT, status := some 200, sentCT := w.headerCT,
      body := w.body ++ s }

/-- `SQLQuery` (main.go:18-25).  The `Parameters` Go map is carried as an
association list in one iteration order (see `buildQueryParams`); a query
with no parameters has the empty list (range over a nil map runs zero
times). -/
structure SQLQuery where
  Name : String
  SQL : String
  Parameters : List (String × FieldType)
deriving DecidableEq, Repr

/-- The hardcoded registry `sqlQueries` (main.go:28-41), an association list
for the Go map keyed by query name. -/
def sqlQueries : List (String × SQLQuery) :=
  [("hello-world",
    { Name := "hello-world",
      SQL := "SELECT * FROM UNNEST([(1, -1, \x27a\x27, null, true, 1.23), (2, 0, \x27bravo\x27, 1, false, -2/3)]);",
      Parameters := [] }),
   ("param",
    { Name := "param",
      SQL := "SELECT * FROM UNNEST([(@name, @id)]);",
      Parameters := [("name", FieldType.string), ("id", FieldType.float)] })]

/-- Whether the second character list is an initial segment of the first. -/
def listStarts : List Char → List Char → Bool
  | _, [] => true
  | [], _ :: _ => false
  | a :: as, b :: bs => a = b && listStarts as bs

/-- Go's `strings.TrimPrefix`: drop the leading occurrence of `p` from `s`,
or return `s` unchanged when `s` does not start with `p`. -/
def trimPre (s p : String) : String :=
  if listStarts s.data p.data then String.mk (s.data.drop p.data.length) else s

/-- What the engine collaborator does for one execution (`q.Read` plus the
row iterator): either `q.Read` itself fails, or it yields the schema and a
finite sequence of `it.Next` outcomes — each a row or a non-`Done` error —
terminated by the implicit `iterator.Done`.  On an errored `Next` the
freshly-made `rawRow` map is left unpopulated. -/
inductive EngineReply where
  | failure (msg : String)
  | success (schema : List FieldSchema) (steps : List (Except String RawRow))

/-- Writer state plus whether the handler reached the engine call
(`q.Read`). -/
structure HandlerState where
  w : ResponseWriter
  engineCalled : Bool
deriving DecidableEq, Repr

/-- How a request run ends: normally, or by an unrecovered runtime panic
from a failed type assertion in `castField` (nothing in `main.go` recovers
it, so no further statement or write of the handler executes). -/
inductive HandlerOutcome where
  | done (s : HandlerState)
  | panicked (s : HandlerState) (assertedType : FieldType)
deriving DecidableEq, Repr

/-- The row loop of `queryHandler` (main.go:95-111).  A non-`Done` iterator
error writes a 500 header and — the source neither `return`s nor
`continue`s — falls through to build and append a row from the unpopulated
`rawRow`; a successful `Next` builds and appends the row.  A type-assertion
panic aborts the loop. -/
def handlerLoop : List (Except String RawRow) → List FieldSchema → ResponseWriter →
    List ProjRow → Except (ResponseWriter × FieldType) (ResponseWriter × List ProjRow)
  | [], _, w, rows => Except.ok (w, rows)
  | step :: rest, schema, w, rows =>
    let w' : ResponseWriter :=
      match step with
      | Except.error _ => w.writeHeader 500
      | Except.ok _ => w
    let raw : RawRow :=
      match step with
      | Except.error _ => []
      | Except.ok r => r
    match projectRow schema raw with
    | Except.error t => Except.error (w', t)
    | Except.ok row => handlerLoop rest schema w' (rows ++ [row])

/-- `queryHandler` (main.go:65-116).  The registry and the engine behaviour
are passed explicitly (the source reads the package-level `sqlQueries` and
`bqClient`); `engineCalled` records whether control reached `q.Read`.  Path
trimming, registry lookup, parameter binding with early 400 return, the
`q.Read` call with early 500 return, the row loop, and the final
marshal/Content-Type/Write sequence follow the source line by line. -/
def queryHandler (registry : List (String × SQLQuery)) (path : String) (values : Values)
    (engine : String → List QueryParameter → EngineReply) : HandlerOutcome :=
  let w := ResponseWriter.init
  let queryName := trimPre path "/query/"
  match registry.lookup queryName with
  | none => HandlerOutcome.done ⟨w.writeHeader 404, false⟩
  | some query =>
    match buildQueryParams query.Parameters values with
    | Except.error _ => HandlerOutcome.done ⟨w.writeHeader 400, false⟩
    | Except.ok params =>
      match engine query.SQL params with
      | EngineReply.failure _ => HandlerOutcome.done ⟨w.writeHeader 500, true⟩
      | EngineReply.success schema steps =>
        match handlerLoop steps schema w [] with
        | Except.error (w', t) => HandlerOutcome.panicked ⟨w', true⟩ t
        | Except.ok (w', rows) =>
          let jsonStr := marshalRows rows
          HandlerOutcome.done ⟨(w'.setContentType "application/json").write jsonStr, true⟩

theorem buildQueryParams_ok_names (config : List (String × FieldType)) (values : Values)
    (ps : List QueryParameter) (h : buildQueryParams config values = Except.ok ps) :
    ps.map QueryParameter.Name = config.map Prod.fst := by
  induction config generalizing ps with
  | nil =>
    simp only [buildQueryParams, Except.ok.injEq] at h
    subst h
    rfl
  | cons kt rest ih =>
    obtain ⟨key, ft⟩ := kt
    simp only [buildQueryParams] at h
    cases hc : convert ft (valuesGet values key) with
    | error e => rw [hc] at h; exact absurd h (by simp)
    | ok v =>
      rw [hc] at h
      cases hr : buildQueryParams rest values with
      | error e => rw [hr] at h; exact absurd h (by simp)
      | ok ps' =>
        rw [hr] at h
        simp only [Except.ok.injEq] at h
        subst h
        simpa using ih ps' hr

theorem buildQueryParams_mem (config : List (String × FieldType)) (values : Values)
    (ps : List QueryParameter) (key : String) (ft : FieldType)
    (h : buildQueryParams config values = Except.ok ps) (hmem : (key, ft) ∈ config) :
    ∃ v, convert ft (valuesGet values key) = Except.ok v ∧ QueryParameter.mk key v ∈ ps := by
  induction config generalizing ps with
  | nil => cases hmem
  | cons kt rest ih =>
    obtain ⟨key', ft'⟩ := kt
    simp only [buildQueryParams] at h
    cases hc : convert ft' (valuesGet values key') with
    | error e => rw [hc] at h; exact absurd h (by simp)
    | ok v =>
      rw [hc] at h
      cases hr : buildQueryParams rest values with
      | error e => rw [hr] at h; exact absurd h (by simp)
      | ok ps' =>
        rw [hr] at h
        simp only [Except.ok.injEq] at h
        subst h
        rcases List.mem_cons.mp hmem with heq | htail
        · obtain ⟨h1, h2⟩ := Prod.mk.injEq .. ▸ heq
          cases h1; cases h2
          exact ⟨v, hc, List.mem_cons_self _ _⟩
        · obtain ⟨w, hw1, hw2⟩ := ih ps' hr htail
          exact ⟨w, hw1, List.mem_cons_of_mem _ hw2⟩

theorem buildQueryParams_error_of_convert (config : List (String × FieldType)) (values : Values)
    (key : String) (ft : FieldType) (e : NumError)
    (hmem : (key, ft) ∈ config) (hc : convert ft (valuesGet values key) = Except.error e) :
    ∃ e', buildQueryParams config values = Except.error e' := by
  induction config with
  | nil => cases hmem
  | cons kt rest ih =>
    obtain ⟨key', ft'⟩ := kt
    rcases List.mem_cons.mp hmem with heq | htail
    · obtain ⟨h1, h2⟩ := Prod.mk.injEq .. ▸ heq
      cases h1; cases h2
      exact ⟨e, by simp [buildQueryParams, hc]⟩
    · cases hc' : convert ft' (valuesGet values key') with
      | error e'' => exact ⟨e'', by simp [buildQueryParams, hc']⟩
      | ok v =>
        obtain ⟨e', he'⟩ := ih htail
        exact ⟨e', by simp [buildQueryParams, hc', he']⟩

theorem buildQueryParams_ok_of_all_ok (config : List (String × FieldType)) (values : Values)
    (hall : ∀ p ∈ config, ∃ v, convert p.2 (valuesGet values p.1) = Except.ok v) :
    ∃ ps, buildQueryParams config values = Except.ok ps := by
  induction config with
  | nil => exact ⟨[], rfl⟩
  | cons kt rest ih =>
    obtain ⟨key, ft⟩ := kt
    obtain ⟨v, hv⟩ := hall (key, ft) (List.mem_cons_self _ _)
    obtain ⟨ps, hps⟩ := ih (fun p hp => hall p (List.mem_cons_of_mem _ hp))
    exact ⟨QueryParameter.mk key v :: ps, by simp [buildQueryParams, hv, hps]⟩

theorem buildQueryParams_congr (config : List (String × FieldType)) (v1 v2 : Values)
    (hagree : ∀ k ∈ config.map Prod.fst, valuesGet v1 k = valuesGet v2 k) :
    buildQueryParams config v1 = buildQueryParams config v2 := by
  induction config with
  | nil => rfl
  | cons kt rest ih =>
    obtain ⟨key, ft⟩ := kt
    have hk : valuesGet v1 key = valuesGet v2 key := hagree key (by simp)
    have hrest := ih (fun k hk' => hagree k (by simp [hk']))
    simp only [buildQueryParams, hk, hrest]

theorem writeHeader_body (w : ResponseWriter) (c : Nat) :
    (w.writeHeader c).body = w.body := by
  cases h : w.status <;> simp [ResponseWriter.writeHeader, h]

theorem writeHeader_status_none (w : ResponseWriter) (c : Nat) (h : w.status = none) :
    (w.writeHeader c).status = some c := by
  simp [ResponseWriter.writeHeader, h]

theorem writeHeader_of_status_some (w : ResponseWriter) (c c' : Nat) (h : w.status = some c) :
    w.writeHeader c' = w := by
  simp [ResponseWriter.writeHeader, h]

theorem castField_none (t : FieldType) : castField t none = CastOutcome.ok none := by
  cases t <;> rfl

theorem handlerLoop_ok_body (steps : List (Except String RawRow)) (schema : List FieldSchema)
    (w w' : ResponseWriter) (rows rows' : List ProjRow)
    (h : handlerLoop steps schema w rows = Except.ok (w', rows')) : w'.body = w.body := by
  induction steps generalizing w rows with
  | nil =>
    simp only [handlerLoop, Except.ok.injEq, Prod.mk.injEq] at h
    rw [h.1]
  | cons step rest ih =>
    simp only [handlerLoop] at h
    cases step with
    | error e =>
      cases hp : projectRow schema [] with
      | error t => rw [hp] at h; exact absurd h (by simp)
      | ok row =>
        rw [hp] at h
        have := ih (w.writeHeader 500) (rows ++ [row]) h
        rw [this, writeHeader_body]
    | ok raw =>
      cases hp : projectRow schema raw with
      | error t => rw [hp] at h; exact absurd h (by simp)
      | ok row => rw [hp] at h; exact ih w (rows ++ [row]) h

theorem handlerLoop_error_body (steps : List (Except String RawRow)) (schema : List FieldSchema)
    (w w' : ResponseWriter) (rows : List ProjRow) (t : FieldType)
    (h : handlerLoop steps schema w rows = Except.error (w', t)) : w'.body = w.body := by
  induction steps generalizing w rows with
  | nil => exact absurd h (by simp [handlerLoop])
  | cons step rest ih =>
    simp only [handlerLoop] at h
    cases step with
    | error e =>
      cases hp : projectRow schema [] with
      | error t' =>
        rw [hp] at h
        simp only [Except.error.injEq, Prod.mk.injEq] at h
        rw [← h.1, writeHeader_body]
      | ok row =>
        rw [hp] at h
        have := ih (w.writeHeader 500) (rows ++ [row]) h
        rw [this, writeHeader_body]
    | ok raw =>
      cases hp : projectRow schema raw with
      | error t' =>
        rw [hp] at h
        simp only [Except.error.injEq, Prod.mk.injEq] at h
        rw [← h.1]
      | ok row => rw [hp] at h; exact ih w (rows ++ [row]) h

theorem handlerLoop_ok_len (steps : List (Except String RawRow)) (schema : List FieldSchema)
    (w w' : ResponseWriter) (rows rows' : List ProjRow)
    (h : handlerLoop steps schema w rows = Except.ok (w', rows')) :
    rows'.length = rows.length + steps.length := by
  induction steps generalizing w rows with
  | nil =>
    simp only [handlerLoop, Except.ok.injEq, Prod.mk.injEq] at h
    rw [← h.2]
    simp
  | cons step rest ih =>
    simp only [handlerLoop] at h
    cases step with
    | error e =>
      cases hp : projectRow schema [] with
      | error t => rw [hp] at h; exact absurd h (by simp)
      | ok row =>
        rw [hp] at h
        have := ih (w.writeHeader 500) (rows ++ [row]) h
        simp only [List.length_append, List.length_cons, List.length_nil] at this ⊢
        omega
    | ok raw =>
      cases hp : projectRow schema raw with
      | error t => rw [hp] at h; exact absurd h (by simp)
      | ok row =>
        rw [hp] at h
        have := ih w (rows ++ [row]) h
        simp only [List.length_append, List.length_cons, List.length_nil] at this ⊢
        omega

theorem handlerLoop_ok_allok (steps : List (Except String RawRow)) (schema : List FieldSchema)
    (w w' : ResponseWriter) (rows rows' : List ProjRow)
    (h : handlerLoop steps schema w rows = Except.ok (w', rows'))
    (hok : ∀ s ∈ steps, ∃ r, s = Except.ok r) : w' = w := by
  induction steps generalizing w rows with
  | nil =>
    simp only [handlerLoop, Except.ok.injEq, Prod.mk.injEq] at h
    exact h.1.symm
  | cons step rest ih =>
    simp only [handlerLoop] at h
    cases step with
    | error e =>
      obtain ⟨r, hr⟩ := hok (Except.error e) (List.mem_cons_self _ _)
      exact absurd hr (by simp)
    | ok raw =>
      cases hp : projectRow schema raw with
      | error t => rw [hp] at h; exact absurd h (by simp)
      | ok row =>
        rw [hp] at h
        exact ih w (rows ++ [row]) h (fun s hs => hok s (List.mem_cons_of_mem _ hs))

theorem handlerLoop_status_some (steps : List (Except String RawRow)) (schema : List FieldSchema)
    (w w' : ResponseWriter) (rows rows' : List ProjRow) (c : Nat)
    (h : handlerLoop steps schema w rows = Except.ok (w', rows')) (hs : w.status = some c) :
    w'.status = some c := by
  induction steps generalizing w rows with
  | nil =>
    simp only [handlerLoop, Except.ok.injEq, Prod.mk.injEq] at h
    rw [← h.1]
    exact hs
  | cons step rest ih =>
    simp only [handlerLoop] at h
    cases step with
    | error e =>
      cases hp : projectRow schema [] with
      | error t => rw [hp] at h; exact absurd h (by simp)
      | ok row =>
        rw [hp] at h
        rw [writeHeader_of_status_some w c 500 hs] at h
        exact ih w (rows ++ [row]) h hs
    | ok raw =>
      cases hp : projectRow schema raw with
      | error t => rw [hp] at h; exact absurd h (by simp)
      | ok row => rw [hp] at h; exact ih w (rows ++ [row]) h hs

theorem handlerLoop_status_500 (steps : List (Except String RawRow)) (schema : List FieldSchema)
    (w w' : ResponseWriter) (rows rows' : List ProjRow)
    (h : handlerLoop steps schema w rows = Except.ok (w', rows')) (hs : w.status = none)
    (herr : ∃ e, Except.error e ∈ steps) : w'.status = some 500 := by
  induction steps generalizing w rows with
  | nil => obtain ⟨e, he⟩ := herr; cases he
  | cons step rest ih =>
    simp only [handlerLoop] at h
    cases step with
    | error e =>
      cases hp : projectRow schema [] with
      | error t => rw [hp] at h; exact absurd h (by simp)
      | ok row =>
        rw [hp] at h
        exact handlerLoop_status_some rest schema (w.writeHeader 500) w' (rows ++ [row]) rows'
          500 h (writeHeader_status_none w 500 hs)
    | ok raw =>
      obtain ⟨e, he⟩ := herr
      have herest : ∃ e, Except.error e ∈ rest := by
        rcases List.mem_cons.mp he with heq | htail
        · exact absurd heq (by simp)
        · exact ⟨e, htail⟩
      cases hp : projectRow schema raw with
      | error t => rw [hp] at h; exact absurd h (by simp)
      | ok row => rw [hp] at h; exact ih w (rows ++ [row]) h hs herest

theorem mapInsert_not_mem (m : ProjRow) (k : String) (v : Option GoValue)
    (h : k ∉ m.map Prod.fst) : mapInsert m k v = m ++ [(k, v)] := by
  have : m.any (fun kv => kv.1 == k) = false := by
    simp only [List.any_eq_false]
    intro kv hkv
    simp only [beq_iff_eq]
    intro hk
    exact h (hk ▸ List.mem_map_of_mem Prod.fst hkv)
  simp [mapInsert, this]

theorem projectRowAux_eq_simple (schema : List FieldSchema) (raw : RawRow) (acc : ProjRow)
    (hd : ∀ f ∈ schema, f.name ∉ acc.map Prod.fst)
    (hnd : (schema.map FieldSchema.name).Nodup) :
    projectRowAux schema raw acc = (projectRowSimple schema raw).map (fun m => acc ++ m) := by
  induction schema generalizing acc with
  | nil => simp [projectRowAux, projectRowSimple, Except.map]
  | cons f rest ih =>
    cases hc : castField f.ftype (rowGet raw f.name) with
    | panic t => simp [projectRowAux, projectRowSimple, hc, Except.map]
    | ok v =>
      have hins : mapInsert acc f.name v = acc ++ [(f.name, v)] :=
        mapInsert_not_mem acc f.name v (hd f (List.mem_cons_self _ _))
      have hnd' : (rest.map FieldSchema.name).Nodup := (List.nodup_cons.mp hnd).2
      have hd' : ∀ g ∈ rest, g.name ∉ (acc ++ [(f.name, v)]).map Prod.fst := by
        intro g hg
        simp only [List.map_append, List.mem_append, List.map_cons, List.map_nil,
          List.mem_singleton]
        rintro (hin | heq)
        · exact hd g (List.mem_cons_of_mem _ hg) hin
        · exact (List.nodup_cons.mp hnd).1 (heq ▸ List.mem_map_of_mem FieldSchema.name hg)
      have ihh := ih (acc ++ [(f.name, v)]) hd' hnd'
      simp only [projectRowAux, projectRowSimple, hc, hins, ihh]
      cases projectRowSimple rest raw <;> simp [Except.map]

theorem projectRowSimple_ok_names (schema : List FieldSchema) (raw : RawRow) (m : ProjRow)
    (h : projectRowSimple schema raw = Except.ok m) :
    m.map Prod.fst = schema.map FieldSchema.name := by
  induction schema generalizing m with
  | nil =>
    simp only [projectRowSimple, Except.ok.injEq] at h
    subst h
    rfl
  | cons f rest ih =>
    simp only [projectRowSimple] at h
    cases hc : castField f.ftype (rowGet raw f.name) with
    | panic t => rw [hc] at h; exact absurd h (by simp [Except.map])
    | ok v =>
      rw [hc] at h
      cases hr : projectRowSimple rest raw with
      | error t => rw [hr] at h; exact absurd h (by simp [Except.map])
      | ok m' =>
        rw [hr] at h
        simp only [Except.map, Except.ok.injEq] at h
        subst h
        simpa using ih m' hr

theorem projectRowSimple_mem (schema : List FieldSchema) (raw : RawRow) (m : ProjRow)
    (h : projectRowSimple schema raw = Except.ok m) (f : FieldSchema) (hf : f ∈ schema) :
    ∃ v, castField f.ftype (rowGet raw f.name) = CastOutcome.ok v ∧ (f.name, v) ∈ m := by
  induction schema generalizing m with
  | nil => cases hf
  | cons g rest ih =>
    simp only [projectRowSimple] at h
    cases hc : castField g.ftype (rowGet raw g.name) with
    | panic t => rw [hc] at h; exact absurd h (by simp [Except.map])
    | ok v =>
      rw [hc] at h
      cases hr : projectRowSimple rest raw with
      | error t => rw [hr] at h; exact absurd h (by simp [Except.map])
      | ok m' =>
        rw [hr] at h
        simp only [Except.map, Except.ok.injEq] at h
        subst h
        rcases List.mem_cons.mp hf with heq | htail
        · subst heq
          exact ⟨v, hc, List.mem_cons_self _ _⟩
        · obtain ⟨w, hw1, hw2⟩ := ih m' hr htail
          exact ⟨w, hw1, List.mem_cons_of_mem _ hw2⟩

theorem projectRow_eq_simple (schema : List FieldSchema) (raw : RawRow)
    (hnd : (schema.map FieldSchema.name).Nodup) :
    projectRow schema raw = projectRowSimple schema raw := by
  rw [projectRow, projectRowAux_eq_simple schema raw [] (by simp) hnd]
  cases projectRowSimple schema raw <;> simp [Except.map]

/-- C1: for every declared parameter of type Integer, `buildQueryParams`
parses the raw string with `strconv.Atoi` (base-10 signed, 64-bit): when
binding succeeds the parameter's binding is the parsed integer (raw `"42"`
yields `42`), and when parsing fails — empty string, non-numeric, or
overflow — the whole binding operation aborts with the parse error instead
of ever producing a zero-valued (or any) successful binding. -/
theorem C1_integer_param_binding (config : List (String × FieldType)) (values : Values)
    (key : String) (hmem : (key, FieldType.integer) ∈ config) :
    (∀ ps, buildQueryParams config values = Except.ok ps →
        ∃ n : Int, atoi (valuesGet values key) = Except.ok n ∧
          QueryParameter.mk key (GoValue.int n) ∈ ps) ∧
    (valuesGet values key = "42" → ∀ ps, buildQueryParams config values = Except.ok ps →
        QueryParameter.mk key (GoValue.int 42) ∈ ps) ∧
    (∀ e, atoi (valuesGet values key) = Except.error e →
        ∃ e', buildQueryParams config values = Except.error e') ∧
    (∃ e, atoi "" = Except.error e) ∧
    (∃ e, atoi "abc" = Except.error e) ∧
    (∃ e, atoi "9223372036854775808" = Except.error e) ∧
    atoi "42" = Except.ok 42 := by
  refine ⟨?_, ?_, ?_, ⟨⟨"Atoi", "", "invalid syntax"⟩, rfl⟩,
    ⟨⟨"Atoi", "abc", "invalid syntax"⟩, rfl⟩,
    ⟨⟨"Atoi", "9223372036854775808", "value out of range"⟩, rfl⟩, rfl⟩
  · intro ps hps
    obtain ⟨v, hv, hmemv⟩ :=
      buildQueryParams_mem config values ps key FieldType.integer hps hmem
    simp only [convert] at hv
    cases ha : atoi (valuesGet values key) with
    | error e => rw [ha] at hv; exact absurd hv (by simp [Except.map])
    | ok n =>
      rw [ha] at hv
      simp only [Except.map, Except.ok.injEq] at hv
      subst hv
      exact ⟨n, rfl, hmemv⟩
  · intro h42 ps hps
    obtain ⟨v, hv, hmemv⟩ :=
      buildQueryParams_mem config values ps key FieldType.integer hps hmem
    rw [h42] at hv
    have : convert FieldType.integer "42" = Except.ok (GoValue.int 42) := rfl
    rw [this] at hv
    simp only [Except.ok.injEq] at hv
    subst hv
    exact hmemv
  · intro e he
    have hc : convert FieldType.integer (valuesGet values key) = Except.error e := by
      simp [convert, he, Except.map]
    exact buildQueryParams_error_of_convert config values key FieldType.integer e hmem hc

/-- C1 witness: a concrete declared Integer parameter whose raw value is
`"abc"` makes the whole binding operation fail. -/
theorem C1_integer_param_binding_witness :
    ∃ e', buildQueryParams [("id", FieldType.integer)] [("id", ["abc"])] =
      Except.error e' :=
  (C1_integer_param_binding [("id", FieldType.integer)] [("id", ["abc"])] "id"
    (List.mem_cons_self _ _)).2.2.1 ⟨"Atoi", "abc", "invalid syntax"⟩ rfl

/-- C3 counterexample: the claim says `bind`'s output is sorted by parameter
name and independent of the input mapping's iteration order.  The same
two-parameter map presented in its two possible iteration orders yields two
different binding sequences, and the first is not sorted by name: the code
emits bindings in map iteration order and never sorts. -/
theorem C3_counterexample_order :
    buildQueryParams [("b", FieldType.string), ("a", FieldType.string)] [] =
      Except.ok [QueryParameter.mk "b" (GoValue.str ""),
        QueryParameter.mk "a" (GoValue.str "")] ∧
    buildQueryParams [("a", FieldType.string), ("b", FieldType.string)] [] =
      Except.ok [QueryParameter.mk "a" (GoValue.str ""),
        QueryParameter.mk "b" (GoValue.str "")] ∧
    List.Perm [("b", FieldType.string), ("a", FieldType.string)]
      [("a", FieldType.string), ("b", FieldType.string)] ∧
    [QueryParameter.mk "b" (GoValue.str ""), QueryParameter.mk "a" (GoValue.str "")] ≠
      [QueryParameter.mk "a" (GoValue.str ""), QueryParameter.mk "b" (GoValue.str "")] ∧
    ¬ List.Pairwise (fun x y : String => strle x y = true) ["b", "a"] := by
  refine ⟨rfl, rfl, ?_, by decide, by decide⟩
  decide

/-- C3 amended: `buildQueryParams` emits exactly one binding per declared
parameter, in the iteration order in which the parameter map is presented
(it does not sort by name, so the order of the returned sequence follows the
Go map's unspecified iteration order rather than being independent of it);
for a fixed presentation and fixed raw values the result is fully
determined. -/
theorem C3_amended_presentation_order (config : List (String × FieldType)) (values : Values)
    (ps : List QueryParameter) (h : buildQueryParams config values = Except.ok ps) :
    ps.map QueryParameter.Name = config.map Prod.fst :=
  buildQueryParams_ok_names config values ps h

/-- C3 amended witness: a concrete two-parameter presentation binds in
presentation order. -/
theorem C3_amended_presentation_order_witness :
    [QueryParameter.mk "b" (GoValue.str ""),
      QueryParameter.mk "a" (GoValue.str "")].map QueryParameter.Name =
      [("b", FieldType.string), ("a", FieldType.string)].map Prod.fst :=
  C3_amended_presentation_order [("b", FieldType.string), ("a", FieldType.string)] []
    [QueryParameter.mk "b" (GoValue.str ""), QueryParameter.mk "a" (GoValue.str "")] rfl

/-- C6: for every declared Boolean parameter the binding holds `true`
exactly when the raw string is the literal `"true"` and `false` for every
other string, and the Boolean conversion can never make binding fail: a
parameter map all of whose parameters are Boolean always binds
successfully. -/
theorem C6_boolean_binding (config : List (String × FieldType)) (values : Values)
    (key : String) (hmem : (key, FieldType.boolean) ∈ config) :
    (∀ ps, buildQueryParams config values = Except.ok ps →
        QueryParameter.mk key (GoValue.bool (valuesGet values key == "true")) ∈ ps) ∧
    (∀ ps, buildQueryParams config values = Except.ok ps →
        (valuesGet values key = "true" → QueryParameter.mk key (GoValue.bool true) ∈ ps) ∧
        (valuesGet values key ≠ "true" → QueryParameter.mk key (GoValue.bool false) ∈ ps)) ∧
    ((∀ p ∈ config, p.2 = FieldType.boolean) →
        ∃ ps, buildQueryParams config values = Except.ok ps) := by
  have hone : ∀ ps, buildQueryParams config values = Except.ok ps →
      QueryParameter.mk key (GoValue.bool (valuesGet values key == "true")) ∈ ps := by
    intro ps hps
    obtain ⟨v, hv, hmemv⟩ :=
      buildQueryParams_mem config values ps key FieldType.boolean hps hmem
    simp only [convert, Except.ok.injEq] at hv
    subst hv
    exact hmemv
  refine ⟨hone, ?_, ?_⟩
  · intro ps hps
    constructor
    · intro heq
      have := hone ps hps
      rw [heq] at this
      simpa using this
    · intro hne
      have := hone ps hps
      have hbeq : (valuesGet values key == "true") = false := by
        simpa [beq_iff_eq] using hne
      rwa [hbeq] at this
  · intro hall
    apply buildQueryParams_ok_of_all_ok
    intro p hp
    rw [hall p hp]
    exact ⟨GoValue.bool (valuesGet values p.1 == "true"), rfl⟩

/-- C6 witness: a concrete Boolean parameter with raw value `"1"` binds to
`false` and the all-Boolean map binds successfully. -/
theorem C6_boolean_binding_witness :
    ∃ ps, buildQueryParams [("flag", FieldType.boolean)] [("flag", ["1"])] =
      Except.ok ps :=
  (C6_boolean_binding [("flag", FieldType.boolean)] [("flag", ["1"])] "flag"
    (List.mem_cons_self _ _)).2.2 (by intro p hp; simpa using List.mem_singleton.mp hp ▸ rfl)

/-- C8: `buildQueryParams` returns exactly one binding per declared
parameter — on success the result has one entry per `config` entry, named by
the declared names — and the result depends only on the raw values of the
declared names: raw-value mappings that agree on every declared name produce
identical results, so undeclared entries never appear in the output and
never cause an error. -/
theorem C8_bind_exact_per_declared (config : List (String × FieldType)) (v1 v2 : Values) :
    (∀ ps, buildQueryParams config v1 = Except.ok ps →
        ps.length = config.length ∧ ps.map QueryParameter.Name = config.map Prod.fst) ∧
    ((∀ k ∈ config.map Prod.fst, valuesGet v1 k = valuesGet v2 k) →
        buildQueryParams config v1 = buildQueryParams config v2) := by
  constructor
  · intro ps hps
    have hnames := buildQueryParams_ok_names config v1 ps hps
    refine ⟨?_, hnames⟩
    have := congrArg List.length hnames
    simpa using this
  · exact buildQueryParams_congr config v1 v2

/-- C8 witness: adding an undeclared raw entry leaves the binding result
unchanged. -/
theorem C8_bind_exact_per_declared_witness :
    buildQueryParams [("a", FieldType.string)] [("a", ["x"]), ("junk", ["y"])] =
      buildQueryParams [("a", FieldType.string)] [("a", ["x"])] :=
  (C8_bind_exact_per_declared [("a", FieldType.string)]
      [("a", ["x"]), ("junk", ["y"])] [("a", ["x"])]).2
    (by intro k hk; simp only [List.map_cons, List.map_nil, List.mem_singleton] at hk
        subst hk; rfl)

theorem empty_append_str (s : String) : "" ++ s = s := by
  cases s
  rfl

/-- C2 counterexample: a column declared Integer whose runtime value is a
string.  `castField` performs the unchecked type assertion `v.(int64)` and
panics; the whole request run ends in the unrecovered panic — the
`panicked` outcome, with no status or body ever written — rather than in
any explicit, checked failure reported from the entry point, refuting the
claim that a type mismatch propagates as a checked error. -/
theorem C2_counterexample_unchecked_panic :
    castField FieldType.integer (some (GoValue.str "a")) =
      CastOutcome.panic FieldType.integer ∧
    projectRow [⟨"c", FieldType.integer⟩] [("c", some (GoValue.str "a"))] =
      Except.error FieldType.integer ∧
    queryHandler [("q", ⟨"q", "SELECT 1", []⟩)] "/query/q" []
        (fun _ _ => EngineReply.success [⟨"c", FieldType.integer⟩]
          [Except.ok [("c", some (GoValue.str "a"))]]) =
      HandlerOutcome.panicked ⟨ResponseWriter.init, true⟩ FieldType.integer :=
  ⟨rfl, rfl, rfl⟩

/-- C2 amended: for every schema column of one of the four checked scalar
types whose non-null value has a mismatched runtime representation,
projection fails the whole row by an unchecked runtime type-assertion panic
— never silently substituting a default value — and the panic aborts the
request before any response body is written (it is a crash, not a checked,
reported error). -/
theorem C2_amended_mismatch_is_panic :
    (∀ (ft : FieldType) (v : GoValue),
        (ft = FieldType.integer ∨ ft = FieldType.string ∨ ft = FieldType.boolean ∨
          ft = FieldType.float) →
        matchesType ft v = false →
        castField ft (some v) = CastOutcome.panic ft) ∧
    (∀ registry path values engine st t,
        queryHandler registry path values engine = HandlerOutcome.panicked st t →
        st.w.body = "") := by
  constructor
  · intro ft v hft hmm
    rcases hft with rfl | rfl | rfl | rfl <;> cases v <;>
      simp_all [matchesType, castField]
  · intro registry path values engine st t h
    simp only [queryHandler] at h
    cases hl : List.lookup (trimPre path "/query/") registry with
    | none => rw [hl] at h; exact absurd h (by simp)
    | some query =>
      rw [hl] at h
      dsimp only at h
      cases hb : buildQueryParams query.Parameters values with
      | error e => rw [hb] at h; exact absurd h (by simp)
      | ok ps =>
        rw [hb] at h
        dsimp only at h
        cases he : engine query.SQL ps with
        | failure m => rw [he] at h; exact absurd h (by simp)
        | success schema steps =>
          rw [he] at h
          dsimp only at h
          cases hloop : handlerLoop steps schema ResponseWriter.init [] with
          | error p =>
            obtain ⟨w', t'⟩ := p
            rw [hloop] at h
            simp only [HandlerOutcome.panicked.injEq] at h
            have hbody :=
              handlerLoop_error_body steps schema ResponseWriter.init w' [] t' hloop
            rw [← h.1]
            exact hbody
          | ok p =>
            obtain ⟨w', rows⟩ := p
            rw [hloop] at h
            exact absurd h (by simp)

/-- C2 amended witness: the concrete mismatch Integer-column/string-value
panics. -/
theorem C2_amended_mismatch_is_panic_witness :
    castField FieldType.integer (some (GoValue.str "a")) =
      CastOutcome.panic FieldType.integer :=
  C2_amended_mismatch_is_panic.1 FieldType.integer (GoValue.str "a") (Or.inl rfl) rfl

/-- C4: whenever parameter binding fails for a looked-up query, the handler
responds 400 with an empty body, the engine is never reached
(`engineCalled = false`), and indeed the outcome is the same for every
possible engine behaviour — binding is validated wholesale before
execution, so a partial binding is never submitted. -/
theorem C4_bind_failure_short_circuits (registry : List (String × SQLQuery)) (path : String)
    (values : Values) (engine : String → List QueryParameter → EngineReply)
    (query : SQLQuery) (e : NumError)
    (h1 : List.lookup (trimPre path "/query/") registry = some query)
    (h2 : buildQueryParams query.Parameters values = Except.error e) :
    queryHandler registry path values engine =
      HandlerOutcome.done ⟨ResponseWriter.init.writeHeader 400, false⟩ ∧
    (ResponseWriter.init.writeHeader 400).status = some 400 ∧
    (ResponseWriter.init.writeHeader 400).body = "" ∧
    (∀ engine', queryHandler registry path values engine' =
        queryHandler registry path values engine) := by
  have hmain : ∀ eng' : String → List QueryParameter → EngineReply,
      queryHandler registry path values eng' =
        HandlerOutcome.done ⟨ResponseWriter.init.writeHeader 400, false⟩ := by
    intro eng'
    simp [queryHandler, h1, h2]
  exact ⟨hmain engine, rfl, rfl, fun engine' => (hmain engine').trans (hmain engine).symm⟩

/-- C4 witness: a query declaring an Integer parameter, called with no raw
values, fails binding and short-circuits to 400. -/
theorem C4_bind_failure_short_circuits_witness :
    queryHandler [("p", ⟨"p", "SELECT @id;", [("id", FieldType.integer)]⟩)] "/query/p" []
        (fun _ _ => EngineReply.failure "never reached") =
      HandlerOutcome.done ⟨ResponseWriter.init.writeHeader 400, false⟩ :=
  (C4_bind_failure_short_circuits [("p", ⟨"p", "SELECT @id;", [("id", FieldType.integer)]⟩)]
    "/query/p" [] (fun _ _ => EngineReply.failure "never reached") _
    ⟨"Atoi", "", "invalid syntax"⟩ rfl rfl).1

/-- C5 counterexample: the projected row for schema order `b, a` holds
exactly those columns, but when the row (a Go map) is serialized by
`encoding/json`, the keys come out in sorted order `a, b` — not in schema
order — refuting the claim's ordering requirement. -/
theorem C5_counterexample_serialized_order :
    projectRow [⟨"b", FieldType.string⟩, ⟨"a", FieldType.string⟩]
        [("b", some (GoValue.str "x")), ("a", some (GoValue.str "y"))] =
      Except.ok [("b", some (GoValue.str "x")), ("a", some (GoValue.str "y"))] ∧
    marshalRow [("b", some (GoValue.str "x")), ("a", some (GoValue.str "y"))] =
      "\x7b\"a\":\"y\",\"b\":\"x\"\x7d" ∧
    "\x7b\"a\":\"y\",\"b\":\"x\"\x7d" ≠ "\x7b\"b\":\"x\",\"a\":\"y\"\x7d" ∧
    marshalRows [[("b", some (GoValue.str "x")), ("a", some (GoValue.str "y"))]] =
      "[\x7b\"a\":\"y\",\"b\":\"x\"\x7d]" :=
  ⟨rfl, rfl, by decide, rfl⟩

/-- C5 amended: for a schema with distinct column names, the projected row
contains exactly the columns named in the schema — no extra keys, no
missing keys — and a column absent from the raw row (or explicitly null)
appears with an explicit null value, never as an omitted key; the key order
observable after serialization is alphabetical (`encoding/json` map-key
sorting), not schema order. -/
theorem C5_amended_exact_columns (schema : List FieldSchema) (raw : RawRow) (m : ProjRow)
    (hnd : (schema.map FieldSchema.name).Nodup)
    (h : projectRow schema raw = Except.ok m) :
    m.map Prod.fst = schema.map FieldSchema.name ∧
    (∀ f ∈ schema, rowGet raw f.name = none → (f.name, none) ∈ m) := by
  rw [projectRow_eq_simple schema raw hnd] at h
  refine ⟨projectRowSimple_ok_names schema raw m h, ?_⟩
  intro f hf hnull
  obtain ⟨v, hv, hmem⟩ := projectRowSimple_mem schema raw m h f hf
  rw [hnull, castField_none] at hv
  injection hv with hv'
  rw [← hv'] at hmem
  exact hmem

/-- C5 amended witness: a two-column schema with one column missing from the
raw row projects to exactly the two schema columns, the missing one as an
explicit null. -/
theorem C5_amended_exact_columns_witness :
    ([("id", some (GoValue.int 2)), ("name", (none : Option GoValue))] : ProjRow).map
        Prod.fst =
      ([⟨"id", FieldType.integer⟩, ⟨"name", FieldType.string⟩] :
        List FieldSchema).map FieldSchema.name :=
  (C5_amended_exact_columns [⟨"id", FieldType.integer⟩, ⟨"name", FieldType.string⟩]
    [("id", some (GoValue.int 2))] [("id", some (GoValue.int 2)), ("name", none)]
    (by decide) rfl).1

/-- C7: when the looked-up query binds successfully and the engine returns
zero rows, the response body is exactly the JSON array literal `[]` — not
empty and not `null`. -/
theorem C7_empty_result_set (registry : List (String × SQLQuery)) (path : String)
    (values : Values) (engine : String → List QueryParameter → EngineReply)
    (query : SQLQuery) (ps : List QueryParameter) (schema : List FieldSchema)
    (h1 : List.lookup (trimPre path "/query/") registry = some query)
    (h2 : buildQueryParams query.Parameters values = Except.ok ps)
    (h3 : engine query.SQL ps = EngineReply.success schema []) :
    ∃ w : ResponseWriter,
      queryHandler registry path values engine = HandlerOutcome.done ⟨w, true⟩ ∧
      w.body = "[]" ∧ w.body ≠ "" ∧ w.body ≠ "null" := by
  refine ⟨(ResponseWriter.init.setContentType "application/json").write (marshalRows []),
    ?_, rfl, by decide, by decide⟩
  simp [queryHandler, h1, h2, h3, handlerLoop]

/-- C7 witness: the configured `hello-world` query with an engine returning
zero rows yields body `[]`. -/
theorem C7_empty_result_set_witness :
    ∃ w : ResponseWriter,
      queryHandler sqlQueries "/query/hello-world" []
          (fun _ _ => EngineReply.success [] []) = HandlerOutcome.done ⟨w, true⟩ ∧
      w.body = "[]" ∧ w.body ≠ "" ∧ w.body ≠ "null" :=
  C7_empty_result_set sqlQueries "/query/hello-world" []
    (fun _ _ => EngineReply.success [] []) _ _ [] rfl rfl rfl

/-- C9: when the iterator yields a non-`Done` error mid-iteration and every
row (including the all-null row built from the unpopulated `rawRow` of the
errored step) projects without a panic, the handler writes status 500 but
does not return: it keeps iterating — one accumulated row per iterator step
— and at the end still writes the serialized JSON body of the accumulated
rows. -/
theorem C9_iterator_error_continues (registry : List (String × SQLQuery)) (path : String)
    (values : Values) (engine : String → List QueryParameter → EngineReply)
    (query : SQLQuery) (ps : List QueryParameter) (schema : List FieldSchema)
    (steps : List (Except String RawRow)) (w : ResponseWriter) (rows : List ProjRow)
    (h1 : List.lookup (trimPre path "/query/") registry = some query)
    (h2 : buildQueryParams query.Parameters values = Except.ok ps)
    (h3 : engine query.SQL ps = EngineReply.success schema steps)
    (h4 : handlerLoop steps schema ResponseWriter.init [] = Except.ok (w, rows))
    (h5 : ∃ e, Except.error e ∈ steps) :
    ∃ w' : ResponseWriter,
      queryHandler registry path values engine = HandlerOutcome.done ⟨w', true⟩ ∧
      w'.status = some 500 ∧
      rows.length = steps.length ∧
      w'.body = marshalRows rows := by
  have h500 : w.status = some 500 :=
    handlerLoop_status_500 steps schema ResponseWriter.init w [] rows h4 rfl h5
  have hb : w.body = "" :=
    handlerLoop_ok_body steps schema ResponseWriter.init w [] rows h4
  refine ⟨(w.setContentType "application/json").write (marshalRows rows), ?_, ?_, ?_, ?_⟩
  · simp [queryHandler, h1, h2, h3, h4]
  · simp [ResponseWriter.setContentType, ResponseWriter.write, h500]
  · simpa using handlerLoop_ok_len steps schema ResponseWriter.init w [] rows h4
  · simp [ResponseWriter.setContentType, ResponseWriter.write, h500, hb, empty_append_str]

/-- C9 witness: one good row, one iterator error, one more good row — the
response is a 500 whose body is the three-row JSON array (the errored step
contributing an all-null row). -/
theorem C9_iterator_error_continues_witness :
    ∃ w' : ResponseWriter,
      queryHandler [("q", ⟨"q", "SELECT 1", []⟩)] "/query/q" []
          (fun _ _ => EngineReply.success [⟨"a", FieldType.integer⟩]
            [Except.ok [("a", some (GoValue.int 1))], Except.error "boom",
              Except.ok [("a", some (GoValue.int 3))]]) =
        HandlerOutcome.done ⟨w', true⟩ ∧
      w'.status = some 500 ∧
      ([[("a", some (GoValue.int 1))], [("a", (none : Option GoValue))],
        [("a", some (GoValue.int 3))]] : List ProjRow).length =
        ([Except.ok [("a", some (GoValue.int 1))], Except.error "boom",
          Except.ok [("a", some (GoValue.int 3))]] : List (Except String RawRow)).length ∧
      w'.body = marshalRows [[("a", some (GoValue.int 1))],
        [("a", (none : Option GoValue))], [("a", some (GoValue.int 3))]] :=
  C9_iterator_error_continues [("q", ⟨"q", "SELECT 1", []⟩)] "/query/q" []
    (fun _ _ => EngineReply.success [⟨"a", FieldType.integer⟩]
      [Except.ok [("a", some (GoValue.int 1))], Except.error "boom",
        Except.ok [("a", some (GoValue.int 3))]])
    _ [] [⟨"a", FieldType.integer⟩]
    [Except.ok [("a", some (GoValue.int 1))], Except.error "boom",
      Except.ok [("a", some (GoValue.int 3))]]
    ⟨none, some 500, none, ""⟩
    [[("a", some (GoValue.int 1))], [("a", none)], [("a", some (GoValue.int 3))]]
    rfl rfl rfl rfl ⟨"boom", by simp⟩

/-- C10: on a successful execution — engine read succeeds, every iterator
step yields a row, every row projects — the handler's single `Write` flushes
headers that already carry `Content-Type: application/json` (the header was
set before the body write, so it is the one actually sent), with implicit
status 200 and the serialized body; this includes the empty result set. -/
theorem C10_content_type_on_success (registry : List (String × SQLQuery)) (path : String)
    (values : Values) (engine : String → List QueryParameter → EngineReply)
    (query : SQLQuery) (ps : List QueryParameter) (schema : List FieldSchema)
    (steps : List (Except String RawRow)) (w : ResponseWriter) (rows : List ProjRow)
    (h1 : List.lookup (trimPre path "/query/") registry = some query)
    (h2 : buildQueryParams query.Parameters values = Except.ok ps)
    (h3 : engine query.SQL ps = EngineReply.success schema steps)
    (hok : ∀ s ∈ steps, ∃ r, s = Except.ok r)
    (h4 : handlerLoop steps schema ResponseWriter.init [] = Except.ok (w, rows)) :
    ∃ w' : ResponseWriter,
      queryHandler registry path values engine = HandlerOutcome.done ⟨w', true⟩ ∧
      w'.sentCT = some "application/json" ∧
      w'.status = some 200 ∧
      w'.body = marshalRows rows := by
  have hw : w = ResponseWriter.init :=
    handlerLoop_ok_allok steps schema ResponseWriter.init w [] rows h4 hok
  subst hw
  refine ⟨(ResponseWriter.init.setContentType "application/json").write (marshalRows rows),
    ?_, rfl, rfl, empty_append_str _⟩
  simp [queryHandler, h1, h2, h3, h4]

/-- C10 witness: the configured `hello-world` query with an empty result set
sends `Content-Type: application/json`, status 200 and body `[]`. -/
theorem C10_content_type_on_success_witness :
    ∃ w' : ResponseWriter,
      queryHandler sqlQueries "/query/hello-world" []
          (fun _ _ => EngineReply.success [] []) = HandlerOutcome.done ⟨w', true⟩ ∧
      w'.sentCT = some "application/json" ∧
      w'.status = some 200 ∧
      w'.body = marshalRows [] :=
  C10_content_type_on_success sqlQueries "/query/hello-world" []
    (fun _ _ => EngineReply.success [] []) _ [] [] [] ResponseWriter.init []
    rfl rfl rfl (fun s hs => absurd hs (by simp)) rfl

end BQProxy
